import Mathlib

/-!
Shallow embedding of the CITES participant-list extraction engine
(`python_code/extract_pdf_data.py`, `python_code/single_column_bold_extract.py`,
`python_code/two_columns_file_extract.py`).

Text is modelled as `List Char`; page coordinates are modelled as exact
rationals `ℚ` (the Python code uses floats, but every operation involved in
the claims — sums, halving, comparisons, sorting — is exact on the inputs
considered).  Fallible code (the variant line clusterer that indexes
`chars[0]` without an emptiness guard) returns `Option`.
-/

/-- Text of a token or line, modelled as a list of characters. -/
abbrev Text := List Char

/-- Whitespace recognised by Python's `str.strip()` / regex `\s` (ASCII part). -/
def isPySpace (c : Char) : Bool :=
  c = ' ' || c = '\t' || c = '\n' || c = '\r' || c = '\x0b' || c = '\x0c'

/-- Python `s.strip()`: drop whitespace from both ends. -/
def stripPy (s : Text) : Text :=
  ((s.dropWhile isPySpace).reverse.dropWhile isPySpace).reverse

/-- Python `c.isupper()` restricted to ASCII letters (the header texts in the
claims are ASCII). -/
def pyIsUpper (c : Char) : Bool :=
  'A' ≤ c && c ≤ 'Z'

/-- Python `" ".join(ts)`. -/
def joinSpace (ts : List Text) : Text :=
  List.intercalate [' '] ts

/-- Python `text.split("/", 1)[0]`: the text before the first slash
(the whole text when no slash occurs). -/
def beforeFirstSlash (s : Text) : Text :=
  s.takeWhile (fun c => c ≠ '/')

/-! Honorific pattern (`title_match_pattern`, extract_pdf_data.py lines 17-19).

The regex is one top-level alternation of literal fragments, each optionally
followed by `\s*`, plus two alternatives (`H.E…`, `S.E…`) with an optional
greedy group.  `re.match` semantics on this pattern are: try the alternatives
left to right, and the first one whose whole fragment matches a prefix wins
(nothing follows the alternation, so no backtracking across alternatives can
occur; `\s*` is greedy and no alternative begins with whitespace, so greedy
matching without backtracking is exact).  Each matcher takes the input and
returns the remainder after the matched prefix, or `none` on failure. -/

/-- Match a literal string prefix; return the rest of the input. -/
def pLit : Text → Text → Option Text
  | [], s => some s
  | _ :: _, [] => none
  | c :: cs, d :: ds => if c = d then pLit cs ds else none

/-- Greedy `\s*`: always succeeds, consuming all leading whitespace. -/
def pWS (s : Text) : Option Text :=
  some (s.dropWhile isPySpace)

/-- Sequencing of two matchers. -/
def pSeq (f g : Text → Option Text) (s : Text) : Option Text :=
  (f s).bind g

/-- Ordered alternation: first matcher that succeeds wins. -/
def pAlt : List (Text → Option Text) → Text → Option Text
  | [], _ => none
  | f :: fs, s =>
    match f s with
    | some r => some r
    | none => pAlt fs s

/-- Greedy optional group `(?:…)?`. -/
def pOpt (f : Text → Option Text) (s : Text) : Option Text :=
  some ((f s).getD s)

/-- A literal fragment. -/
def lit (t : String) : Text → Option Text :=
  pLit t.toList

/-- A literal fragment followed by `\s*`. -/
def litWS (t : String) : Text → Option Text :=
  pSeq (lit t) pWS

/-- The ordered alternatives of `title_match_pattern`, transcribed in the
order they appear in the regex source. -/
def titleAlternatives : List (Text → Option Text) :=
  [ litWS "Mr.", litWS "H.R.H.", litWS "Mx.", lit "St.", lit "Miss ",
    lit "Mlle ", lit "Mine ", litWS "H.H.", litWS "Ind.", lit "His ",
    lit "Ind ", lit "Ms ", lit "Mr ", lit "Sra ", lit "Sr ", lit "M ",
    lit "On ", lit "M ", lit "Fr ", litWS "H.O.", lit "Rev ", lit "Mme ",
    lit "Sr ", lit "Msgr ", litWS "On.", litWS "Fr.", litWS "Rev.",
    pSeq (lit "H.E") (pOpt (pSeq (litWS ".")
      (pAlt [litWS "Ms.", litWS "Mr.", lit "Ms ", lit "Mr ", lit "Sra ",
             lit "Sr ", litWS "Sra.", lit "Mme", litWS "Sr.", litWS "Msgr."]))),
    litWS "Msgr.", litWS "Mrs.", litWS "Sra.", litWS "Sr.", litWS "Ms.",
    litWS "Dr.", litWS "Prof.", litWS "M.", lit "Mme", lit "Ms",
    pSeq (lit "S.E") (pOpt (pSeq (litWS ".")
      (pAlt [litWS "Ms.", litWS "Mr.", lit "Mme", lit "Mr", lit "Ms",
             lit "Dr", litWS "Msgr.", litWS "M.", lit "Ms ", lit "Mr ",
             lit "Sra ", lit "Sr ", lit "M ", litWS "Sra.", litWS "Sr."]))) ]

/-- Model of `title_match_pattern.match s`: remainder after the matched prefix, or
`none` when no alternative matches a prefix of `s`. -/
def titleMatch (s : Text) : Option Text :=
  pAlt titleAlternatives s

/-- Model of `split_honorific_and_person` (extract_pdf_data.py lines 31-39). -/
def split_honorific_and_person (line : Text) : Text × Text :=
  let s := stripPy line
  match titleMatch s with
  | some rest => (stripPy (s.take (s.length - rest.length)), stripPy rest)
  | none => ([], s)

/-! Header classifier (`is_all_caps_header`, extract_pdf_data.py lines 42-51). -/

/-- Model of `is_all_caps_header` (extract_pdf_data.py lines 42-51); identical logic to
`is_delegation` (two_columns_file_extract.py lines 69-76) except for the
`if not text` early return, which changes nothing observable. -/
def is_all_caps_header (text : Text) : Bool :=
  if text.isEmpty then false
  else
    let s := stripPy text
    !s.isEmpty && s.all (fun c => pyIsUpper c || c = ' ' || c = '/')

/-- The spec's wording of the header contract, written independently of the
source: "after trimming whitespace, every character is an uppercase letter, a
space, or a slash, and the trimmed text is non-empty". -/
def headerShapedSpec (text : Text) : Bool :=
  !(stripPy text).isEmpty &&
    (stripPy text).all (fun c => pyIsUpper c || c = ' ' || c = '/')

/-! Data model. -/

/-- A word-level token `{text, x0, top}` as produced by
`page.extract_words()` or the OCR TSV conversion. -/
structure Word where
  text : Text
  x0 : ℚ
  top : ℚ
deriving DecidableEq

/-- A character-level token `{text, x0, top, fontname}` as produced by
`page.chars`. -/
structure CChar where
  text : Text
  x0 : ℚ
  top : ℚ
  fontname : Text
deriving DecidableEq

/-- A clustered line with vertical span, word-level path: `(text, y0, y1)`. -/
structure LineY where
  text : Text
  y0 : ℚ
  y1 : ℚ
deriving DecidableEq

/-- A clustered line with boldness flag, character-level path:
`(text, y0, y1, is_bold)`. -/
structure BLine where
  text : Text
  y0 : ℚ
  y1 : ℚ
  bold : Bool
deriving DecidableEq

/-- A paragraph `([line1, line2, …], block_y0, block_y1)`. -/
structure Para where
  lines : List Text
  y0 : ℚ
  y1 : ℚ
deriving DecidableEq

/-- Structured output row `Record(Delegation, Honorific, Person_Name,
Affiliation)`. -/
structure Record where
  Delegation : Text
  Honorific : Text
  Person_Name : Text
  Affiliation : Text
deriving DecidableEq

/-! Line clusterer, character path. -/

/-- Ordering on char tokens used by `sorted(chars, key=(top, x0))`. -/
def charKeyLE (a b : CChar) : Prop :=
  a.top < b.top ∨ (a.top = b.top ∧ a.x0 ≤ b.x0)

instance : DecidableRel charKeyLE := fun a b =>
  inferInstanceAs (Decidable (a.top < b.top ∨ (a.top = b.top ∧ a.x0 ≤ b.x0)))

/-- Ordering on char tokens used by `line_chars.sort(key=x0)`. -/
def charX0LE (a b : CChar) : Prop :=
  a.x0 ≤ b.x0

instance : DecidableRel charX0LE := fun a b =>
  inferInstanceAs (Decidable (a.x0 ≤ b.x0))

/-- Python `'Bold' in (fontname or '')`: substring test. -/
def containsBold (s : Text) : Bool :=
  s.tails.any (fun suf => (pLit "Bold".toList suf).isSome)

/-- The clustering loop shared by both `group_chars_to_lines` variants:
maintain the current accumulator with its span `(y0, y1)`, flushing whenever
the next token's `top` is more than `y_tol` away from the running `y1`. -/
def clusterChars (y_tol : ℚ) (cur : List CChar) (y0 y1 : ℚ) :
    List CChar → List (List CChar × ℚ × ℚ)
  | [] => [(cur, y0, y1)]
  | c :: cs =>
    if |c.top - y1| ≤ y_tol then clusterChars y_tol (cur ++ [c]) y0 c.top cs
    else (cur, y0, y1) :: clusterChars y_tol [c] c.top c.top cs

/-- Turn a flushed cluster into a line: re-sort by `x0`, concatenate the char
texts with no separator, strip, and flag bold. -/
def lineOfCluster (cl : List CChar × ℚ × ℚ) : BLine :=
  let sortedCl := List.insertionSort charX0LE cl.1
  ⟨stripPy (sortedCl.flatMap (·.text)), cl.2.1, cl.2.2,
    sortedCl.any (fun c => containsBold c.fontname)⟩

/-- Model of `group_chars_to_lines` (extract_pdf_data.py lines 54-81): guarded against
empty input. -/
def group_chars_to_lines (chars : List CChar) (y_tol : ℚ) : List BLine :=
  match List.insertionSort charKeyLE chars with
  | [] => []
  | c0 :: rest => (clusterChars y_tol [c0] c0.top c0.top rest).map lineOfCluster

/-- Model of `group_chars_to_lines` (single_column_bold_extract.py lines 4-30): same
algorithm but with NO emptiness guard — `chars[0]` raises `IndexError` on an
empty character list, modelled as `none`. -/
def sc_group_chars_to_lines (chars : List CChar) (y_tol : ℚ) :
    Option (List BLine) :=
  match List.insertionSort charKeyLE chars with
  | [] => none
  | c0 :: rest =>
    some ((clusterChars y_tol [c0] c0.top c0.top rest).map lineOfCluster)

/-! Line clusterer, word path. -/

/-- Ordering on word tokens used by `sorted(words, key=(top, x0))`. -/
def wordKeyLE (a b : Word) : Prop :=
  a.top < b.top ∨ (a.top = b.top ∧ a.x0 ≤ b.x0)

instance : DecidableRel wordKeyLE := fun a b =>
  inferInstanceAs (Decidable (a.top < b.top ∨ (a.top = b.top ∧ a.x0 ≤ b.x0)))

/-- Ordering on word tokens used by `cur.sort(key=x0)`. -/
def wordX0LE (a b : Word) : Prop :=
  a.x0 ≤ b.x0

instance : DecidableRel wordX0LE := fun a b =>
  inferInstanceAs (Decidable (a.x0 ≤ b.x0))

/-- Clustering loop for the word path. -/
def clusterWords (y_tol : ℚ) (cur : List Word) (y0 y1 : ℚ) :
    List Word → List (List Word × ℚ × ℚ)
  | [] => [(cur, y0, y1)]
  | w :: ws =>
    if |w.top - y1| ≤ y_tol then clusterWords y_tol (cur ++ [w]) y0 w.top ws
    else (cur, y0, y1) :: clusterWords y_tol [w] w.top w.top ws

/-- Flush rule for the word path: re-sort by `x0` and join the word texts
with single spaces (no strip). -/
def lineOfWordCluster (cl : List Word × ℚ × ℚ) : LineY :=
  ⟨joinSpace ((List.insertionSort wordX0LE cl.1).map (·.text)), cl.2.1, cl.2.2⟩

/-- Model of `group_words_to_lines_with_y` (extract_pdf_data.py lines 84-112). -/
def group_words_to_lines_with_y (words : List Word) (y_tol : ℚ) : List LineY :=
  match List.insertionSort wordKeyLE words with
  | [] => []
  | w0 :: rest =>
    (clusterWords y_tol [w0] w0.top w0.top rest).map lineOfWordCluster

/-! Paragraph segmenter (`collect_paragraphs_with_y`,
extract_pdf_data.py lines 115-151; two_columns_file_extract.py lines 34-67) -/

/-- Vertical midpoints `(y0+y1)/2` of each line. -/
def midsOf (lines : List LineY) : List ℚ :=
  lines.map (fun l => (l.y0 + l.y1) / 2)

/-- Gaps between consecutive midpoints: `mids[i+1] - mids[i]`. -/
def gapsOf (lines : List LineY) : List ℚ :=
  ((midsOf lines).zip (midsOf lines).tail).map (fun p => p.2 - p.1)

/-- The gap sequence sorted ascending (`sorted(diffs)`). -/
def sortedGaps (lines : List LineY) : List ℚ :=
  List.insertionSort (· ≤ ·) (gapsOf lines)

/-- Model of `median_gap = sorted(diffs)[len(diffs) // 2]` — the segmenter's reference
spacing (the default `0` of `getD` is never reached on the guarded path,
since the caller checks `diffs` nonempty first). -/
def medianGap (lines : List LineY) : ℚ :=
  (sortedGaps lines).getD ((gapsOf lines).length / 2) 0

/-- Model of `thresh = median_gap * para_factor` — the paragraph-break threshold. -/
def paraThreshold (lines : List LineY) (para_factor : ℚ) : ℚ :=
  medianGap lines * para_factor

/-- The segmenter's scan loop: state is the accumulated current paragraph
(`cur_lines`), its span (`block_y0`/`block_y1`, `None` when unset), and the
previous midpoint (`prev_mid`). -/
def paraStep (thresh : ℚ) (cur : List Text) (by0 by1 prevMid : Option ℚ) :
    List LineY → List Para
  | [] => if cur.isEmpty then [] else [⟨cur, by0.getD 0, by1.getD 0⟩]
  | l :: ls =>
    let mid := (l.y0 + l.y1) / 2
    let doBreak : Bool :=
      (match prevMid with
       | some pm => decide (mid - pm > thresh)
       | none => false) && !cur.isEmpty
    if doBreak then
      ⟨cur, by0.getD l.y0, by1.getD l.y1⟩ ::
        paraStep thresh [l.text] (some l.y0) (some l.y1) (some mid) ls
    else
      paraStep thresh (cur ++ [l.text])
        (if cur.isEmpty then some l.y0 else by0) (some l.y1) (some mid) ls

/-- Model of `collect_paragraphs_with_y` (extract_pdf_data.py lines 115-151): empty
input gives no paragraphs; a single line short-circuits (its gap list is
empty); otherwise the scan runs with `thresh = median_gap * para_factor`. -/
def collect_paragraphs_with_y (lines : List LineY) (para_factor : ℚ) :
    List Para :=
  match lines with
  | [] => []
  | l0 :: rest =>
    if rest.isEmpty then [⟨[l0.text], l0.y0, l0.y1⟩]
    else paraStep (paraThreshold (l0 :: rest) para_factor) [] none none none
      (l0 :: rest)

/-! Two-column record assembly (`_twocol_records_from_words`,
extract_pdf_data.py lines 199-260; `extract_by_blank_lines`,
two_columns_file_extract.py lines 78-158) -/

/-- Header detection over the full-page paragraphs: a paragraph whose block
is a single header-shaped line becomes `(midpoint_y, name-before-slash)`;
the resulting list is sorted by midpoint. -/
def headersOfParas (paras : List Para) : List (ℚ × Text) :=
  List.insertionSort (fun a b => a.1 ≤ b.1)
    (paras.filterMap (fun blk =>
      match blk.lines with
      | [t] =>
        if is_all_caps_header t then
          some ((blk.y0 + blk.y1) / 2, stripPy (beforeFirstSlash t))
        else none
      | _ => none))

instance : DecidableRel (fun (a b : ℚ × Text) => a.1 ≤ b.1) := fun a b =>
  inferInstanceAs (Decidable (a.1 ≤ b.1))

/-- Model of `header_for_mid` / `find_delegation`: linear scan recording the last
header whose midpoint is `≤ mid`, stopping at the first one beyond it. -/
def header_for_mid : List (ℚ × Text) → ℚ → Option Text
  | [], _ => none
  | (m, nm) :: rest, mid =>
    if m ≤ mid then some ((header_for_mid rest mid).getD nm) else none

/-- Python `delegation = header_for_mid(mid) or ""`: the `or` replaces a falsy
(empty) string by `""` as well as `None`. -/
def pyOrEmpty (o : Option Text) : Text :=
  match o with
  | some s => if s.isEmpty then [] else s
  | none => []

/-- A column paragraph that is a pure header (single header-shaped line) —
these are skipped inside the columns. -/
def isSingletonHeader (blk : Para) : Bool :=
  match blk.lines with
  | [t] => is_all_caps_header t
  | _ => false

/-- The record built from one non-header column paragraph: first line split
into honorific/person, remaining lines space-joined as affiliation,
delegation resolved from the paragraph midpoint against the page headers. -/
def recordForBlock (headers : List (ℚ × Text)) (blk : Para) : Record :=
  let name_line := stripPy (blk.lines.headD [])
  let hp := split_honorific_and_person name_line
  let affiliation := stripPy (joinSpace ((blk.lines.drop 1).map stripPy))
  let mid := (blk.y0 + blk.y1) / 2
  ⟨pyOrEmpty (header_for_mid headers mid), hp.1, hp.2, affiliation⟩

/-- The per-column loop of `_twocol_records_from_words` (extract_pdf_data.py
lines 238-258): skip pure headers and empty blocks, emit a record for every
other paragraph. -/
def twocolColumnRecords (headers : List (ℚ × Text)) (paras : List Para) :
    List Record :=
  paras.filterMap (fun blk =>
    if isSingletonHeader blk then none
    else if blk.lines.isEmpty then none
    else some (recordForBlock headers blk))

/-- Model of `_twocol_records_from_words` (extract_pdf_data.py lines 199-260):
page-global header detection, column split at `x0_thresh`, then the
per-column paragraph loop on the left column followed by the right. -/
def twocol_records_from_words (words : List Word) (x0_thresh : ℚ) :
    List Record :=
  let full_paras :=
    collect_paragraphs_with_y (group_words_to_lines_with_y words 3) (3/2)
  let headers := headersOfParas full_paras
  let leftW := words.filter (fun w => decide (w.x0 < x0_thresh))
  let rightW := words.filter (fun w => decide (x0_thresh ≤ w.x0))
  twocolColumnRecords headers
      (collect_paragraphs_with_y (group_words_to_lines_with_y leftW 3) (3/2))
    ++ twocolColumnRecords headers
      (collect_paragraphs_with_y (group_words_to_lines_with_y rightW 3) (3/2))

/-! Single-column record assembly (`extract_singlecol_textpdf`,
extract_pdf_data.py lines 154-196) -/

/-- Truthiness of the `current_delegation` variable: `None` and `""` are
falsy in Python. -/
def delegTruthy : Option Text → Bool
  | none => false
  | some s => !s.isEmpty

/-- Guard of the inner affiliation loop:
`not lines[i][3] and lines[i][0].strip()`. -/
def isAffilLine (l : BLine) : Bool :=
  !l.bold && !(stripPy l.text).isEmpty

/-- The affiliation lines consumed by the inner loop (already stripped, as
`affiliation_lines.append(lines[i][0].strip())` does). -/
def affilTake (ls : List BLine) : List Text :=
  (ls.takeWhile isAffilLine).map (fun l => stripPy l.text)

/-- The lines remaining after the inner affiliation loop. -/
def affilDrop (ls : List BLine) : List BLine :=
  ls.dropWhile isAffilLine

/-- The `while i < len(lines)` walk of `extract_singlecol_textpdf`
(extract_pdf_data.py lines 163-194), with an explicit fuel argument standing
for the loop bound (every iteration advances `i` by at least one, so
`fuel = length of the remaining lines` always suffices): a bold non-empty
line updates the active delegation; a non-bold non-empty line under an
active delegation is split into honorific/person and greedily consumes the
following non-bold non-blank lines as affiliation; everything else is
skipped. -/
def singlecolGo : ℕ → Option Text → List BLine → List Record
  | _, _, [] => []
  | 0, _, _ :: _ => []
  | fuel + 1, deleg, l :: rest =>
    if l.bold && !l.text.isEmpty then
      singlecolGo fuel (some (stripPy (beforeFirstSlash l.text))) rest
    else if delegTruthy deleg && !l.text.isEmpty then
      let hp := split_honorific_and_person l.text
      ⟨deleg.getD [], hp.1, hp.2, stripPy (joinSpace (affilTake rest))⟩ ::
        singlecolGo fuel deleg (affilDrop rest)
    else singlecolGo fuel deleg rest

/-- The single-column walk on a page's lines, starting from the given active
delegation (`None` at the top of each page). -/
def singlecolLoop (deleg : Option Text) (ls : List BLine) : List Record :=
  singlecolGo ls.length deleg ls

/-- Model of `extract_singlecol_textpdf` over the pages of a document, each page being
its character-token list; `current_delegation` is reset to `None` on every
page. -/
def extract_singlecol_textpdf (pages : List (List CChar)) : List Record :=
  pages.flatMap (fun chars => singlecolLoop none (group_chars_to_lines chars 3))

/-! Layout mode detector (`detect_layout_quick`,
extract_pdf_data.py lines 313-331)

A sampled page is `none` when `page.extract_words()` raises.  The whole page
loop sits inside one `try/except` whose handler returns `"one"`, so an
extraction failure anywhere aborts the scan with `"one"` — it does NOT skip
the failing page. -/

/-- Number of tokens with `x0 < t` on a page. -/
def leftCount (ws : List Word) (t : ℚ) : ℕ :=
  ws.countP (fun w => decide (w.x0 < t))

/-- Number of tokens with `x0 ≥ t` on a page. -/
def rightCount (ws : List Word) (t : ℚ) : ℕ :=
  ws.countP (fun w => decide (t ≤ w.x0))

/-- The scan over the (up to two) sampled pages. -/
def detectGo : List (Option (List Word)) → ℚ → String
  | [], _ => "one"
  | none :: _, _ => "one"
  | some ws :: rest, t =>
    if ws.isEmpty then detectGo rest t
    else
      let left := leftCount ws t
      let right := rightCount ws t
      let total := left + right
      if total = 0 then detectGo rest t
      else if (left : ℚ) / (total : ℚ) ≥ 1/4 ∧ (right : ℚ) / (total : ℚ) ≥ 1/4
        then "two"
      else detectGo rest t

/-- Model of `detect_layout_quick`: inspect at most the first two pages. -/
def detect_layout_quick (pages : List (Option (List Word))) (t : ℚ) : String :=
  detectGo (pages.take 2) t

/-- The spec's qualifying condition for a page: non-empty, and the left and
right token counts each reach at least 25% of the page's total token count. -/
def pageQualifies (ws : List Word) (t : ℚ) : Bool :=
  !ws.isEmpty &&
    decide ((leftCount ws t : ℚ) / (ws.length : ℚ) ≥ 1/4) &&
    decide ((rightCount ws t : ℚ) / (ws.length : ℚ) ≥ 1/4)

/-! Concrete inputs used by the claim theorems below. -/

/-- Per-page line clustering stage of `extract_delegation_records`
(single_column_bold_extract.py lines 32-38): each page's characters go
through the unguarded clusterer; `none` models the `IndexError` escaping
from the first empty page. -/
def scPageLines (pages : List (List CChar)) : Option (List (List BLine)) :=
  pages.mapM (fun chars => sc_group_chars_to_lines chars 3)

/-- Three lines with midpoint gaps `[1, 3]` — an even gap count. -/
def exC2 : List LineY :=
  [⟨"a".toList, 0, 0⟩, ⟨"b".toList, 1, 1⟩, ⟨"c".toList, 4, 4⟩]

/-- A two-line person paragraph sitting below no header. -/
def c3blk : Para := ⟨["Jane Roe".toList, "Dept. of Wildlife".toList], 40, 41⟩

/-- A two-line paragraph whose first line is header-shaped (all caps). -/
def c10blk : Para := ⟨["ARGENTINA".toList, "Dept. of Wildlife".toList], 40, 41⟩

/-- The spec's single-column scenario: bold delegation line, person line,
affiliation line, blank line. -/
def c1lines : List BLine :=
  [⟨"BAHAMAS".toList, 0, 0, true⟩,
   ⟨"Mr. John Doe".toList, 10, 10, false⟩,
   ⟨"Ministry of Environment".toList, 20, 20, false⟩,
   ⟨"".toList, 30, 30, false⟩]

/-- A page with a 40%/60% column split at threshold 260 (2 of 5 tokens
left, 3 of 5 right). -/
def pageForty : List Word :=
  List.replicate 2 ⟨"w".toList, 100, 0⟩ ++ List.replicate 3 ⟨"w".toList, 300, 0⟩

/-- A page with a 95%/5% column split at threshold 260 (19 of 20 tokens
left, 1 of 20 right). -/
def pageNinetyFive : List Word :=
  List.replicate 19 ⟨"w".toList, 100, 0⟩ ++ [⟨"w".toList, 300, 0⟩]

/-! Helper lemmas. -/

/-- Unfolding equation of the segmenter on a non-empty line list. -/
theorem collect_paragraphs_cons (l0 : LineY) (rest : List LineY) (factor : ℚ) :
    collect_paragraphs_with_y (l0 :: rest) factor =
      if rest.isEmpty = true then [⟨[l0.text], l0.y0, l0.y1⟩]
      else paraStep (paraThreshold (l0 :: rest) factor) [] none none none
        (l0 :: rest) := rfl

/-- Helper: the scan loop emits only non-empty paragraphs. -/
theorem paraStep_lines_ne_nil (thresh : ℚ) :
    ∀ (ls : List LineY) (cur : List Text) (by0 by1 prevMid : Option ℚ)
      (p : Para), p ∈ paraStep thresh cur by0 by1 prevMid ls → p.lines ≠ [] := by
  intro ls
  induction ls with
  | nil =>
    intro cur by0 by1 prevMid p hp
    simp only [paraStep] at hp
    by_cases hc : cur.isEmpty
    · simp [hc] at hp
    · simp [hc] at hp
      subst hp
      simpa using hc
  | cons l ls ih =>
    intro cur by0 by1 prevMid p hp
    simp only [paraStep] at hp
    split at hp
    · rcases List.mem_cons.mp hp with h | h
      · subst h
        rename_i hbr
        have : !cur.isEmpty := by
          rcases Bool.and_eq_true .. |>.mp hbr with ⟨_, h2⟩
          exact h2
        simpa using this
      · exact ih _ _ _ _ p h
    · exact ih _ _ _ _ p hp

/-- Helper: the scan loop's paragraphs flatten back to the pending text plus
the remaining line texts, in order. -/
theorem paraStep_flatten (thresh : ℚ) :
    ∀ (ls : List LineY) (cur : List Text) (by0 by1 prevMid : Option ℚ),
      (paraStep thresh cur by0 by1 prevMid ls).flatMap Para.lines
        = cur ++ ls.map LineY.text := by
  intro ls
  induction ls with
  | nil =>
    intro cur by0 by1 prevMid
    simp only [paraStep]
    by_cases hc : cur.isEmpty
    · simp [hc, List.isEmpty_iff.mp hc]
    · simp [hc]
  | cons l ls ih =>
    intro cur by0 by1 prevMid
    simp only [paraStep]
    split
    · simp [ih]
    · simp [ih]

/-- Helper: every paragraph the segmenter returns holds at least one line. -/
theorem collect_paragraphs_lines_ne_nil (lines : List LineY) (factor : ℚ) :
    ∀ p ∈ collect_paragraphs_with_y lines factor, p.lines ≠ [] := by
  intro p hp
  match lines with
  | [] => simp [collect_paragraphs_with_y] at hp
  | l0 :: rest =>
    rw [collect_paragraphs_cons] at hp
    by_cases hr : rest.isEmpty = true
    · rw [if_pos hr] at hp
      simp at hp
      subst hp
      simp
    · rw [if_neg hr] at hp
      exact paraStep_lines_ne_nil _ _ _ _ _ _ p hp

/-- Helper: the segmenter's paragraphs flatten to the input line texts. -/
theorem collect_paragraphs_flatten (lines : List LineY) (factor : ℚ) :
    (collect_paragraphs_with_y lines factor).flatMap Para.lines
      = lines.map LineY.text := by
  match lines with
  | [] => simp [collect_paragraphs_with_y]
  | l0 :: rest =>
    rw [collect_paragraphs_cons]
    by_cases hr : rest.isEmpty = true
    · rw [if_pos hr]
      simp [List.isEmpty_iff.mp hr]
    · rw [if_neg hr]
      simpa using paraStep_flatten _ (l0 :: rest) [] none none none

/-- Helper: a list of non-empty paragraphs is no longer than its flattening. -/
theorem length_le_flatten (ps : List Para) (h : ∀ p ∈ ps, p.lines ≠ []) :
    ps.length ≤ (ps.flatMap Para.lines).length := by
  induction ps with
  | nil => simp
  | cons p ps ih =>
    have h1 : p.lines ≠ [] := h p (by simp)
    have h2 : 1 ≤ p.lines.length := List.length_pos.mpr h1
    have h3 := ih (fun q hq => h q (by simp [hq]))
    simp only [List.flatMap_cons, List.length_append, List.length_cons]
    omega

/-- Helper: a non-header, non-empty paragraph contributes its record to the
column output. -/
theorem recordForBlock_mem (headers : List (ℚ × Text)) (paras : List Para)
    (blk : Para) (h1 : blk ∈ paras) (h2 : isSingletonHeader blk = false)
    (h3 : blk.lines ≠ []) :
    recordForBlock headers blk ∈ twocolColumnRecords headers paras := by
  apply List.mem_filterMap.mpr
  refine ⟨blk, h1, ?_⟩
  simp [h2, h3]

/-- Helper: when every header midpoint lies strictly below the query
midpoint, the scan returns nothing. -/
theorem header_for_mid_none (headers : List (ℚ × Text)) (mid : ℚ)
    (h : ∀ p ∈ headers, mid < p.1) : header_for_mid headers mid = none := by
  match headers with
  | [] => rfl
  | (m, nm) :: rest =>
    have hm : mid < m := h (m, nm) (by simp)
    simp [header_for_mid, not_le.mpr hm]

/-- Helper: the column loop is exactly "drop singleton headers and empty
blocks, map the record builder over the rest". -/
theorem twocolColumnRecords_eq (headers : List (ℚ × Text)) (paras : List Para) :
    twocolColumnRecords headers paras =
      (paras.filter
        (fun blk => !isSingletonHeader blk && !blk.lines.isEmpty)).map
        (recordForBlock headers) := by
  induction paras with
  | nil => rfl
  | cons blk paras ih =>
    by_cases hs : isSingletonHeader blk <;> by_cases he : blk.lines = [] <;>
      simp [twocolColumnRecords, List.filterMap_cons, List.filter_cons, hs,
        he] at ih ⊢ <;>
      exact ih

/-- Helper: left and right token counts partition the page. -/
theorem leftCount_add_rightCount (ws : List Word) (t : ℚ) :
    leftCount ws t + rightCount ws t = ws.length := by
  unfold leftCount rightCount
  induction ws with
  | nil => rfl
  | cons w ws ih =>
    by_cases h : w.x0 < t
    · simp [List.countP_cons, h, not_le.mpr h]; omega
    · simp [List.countP_cons, h, not_lt.mp h]; omega

/-- Helper: one successful page step of the detector. -/
theorem detectGo_cons_some (ws : List Word) (rest : List (Option (List Word)))
    (t : ℚ) :
    detectGo (some ws :: rest) t =
      if pageQualifies ws t then "two" else detectGo rest t := by
  by_cases he : ws.isEmpty = true
  · simp [detectGo, he, pageQualifies]
  · have hlen0 : ws.length ≠ 0 := by
      intro h0
      exact he (by rw [List.length_eq_zero.mp h0]; rfl)
    have htot := leftCount_add_rightCount ws t
    have h2 : detectGo (some ws :: rest) t =
        if (leftCount ws t : ℚ) / (ws.length : ℚ) ≥ 1/4
            ∧ (rightCount ws t : ℚ) / (ws.length : ℚ) ≥ 1/4
          then "two" else detectGo rest t := by
      simp only [detectGo, he, Bool.false_eq_true, if_false, htot,
        if_neg hlen0]
    rw [h2]
    by_cases hL : (leftCount ws t : ℚ) / (ws.length : ℚ) ≥ 1/4
    · by_cases hR : (rightCount ws t : ℚ) / (ws.length : ℚ) ≥ 1/4
      · have hpq : pageQualifies ws t = true := by
          unfold pageQualifies
          rw [Bool.and_eq_true, Bool.and_eq_true]
          refine ⟨⟨?_, decide_eq_true hL⟩, decide_eq_true hR⟩
          rw [Bool.not_eq_true] at he
          rw [he]
          rfl
        rw [if_pos ⟨hL, hR⟩, if_pos hpq]
      · have hpq : pageQualifies ws t = false := by
          unfold pageQualifies
          rw [decide_eq_false hR, Bool.and_false]
        rw [if_neg (fun hcon => hR hcon.2), hpq]
        rw [if_neg (by simp)]
    · have hpq : pageQualifies ws t = false := by
        unfold pageQualifies
        rw [decide_eq_false hL, Bool.and_false, Bool.false_and]
      rw [if_neg (fun hcon => hL hcon.1), hpq]
      rw [if_neg (by simp)]

/-- Helper: on failure-free pages the detector returns "two" exactly when
some sampled page qualifies. -/
theorem detectGo_map_some_eq (t : ℚ) (l : List (List Word)) :
    detectGo (l.map some) t =
      if l.any (fun ws => pageQualifies ws t) then "two" else "one" := by
  induction l with
  | nil => rfl
  | cons ws l ih =>
    rw [List.map_cons, detectGo_cons_some, List.any_cons]
    by_cases hq : pageQualifies ws t
    · simp [hq]
    · simp only [Bool.not_eq_true] at hq
      simp [hq, ih]

/-! Claim theorems. -/

/-- Claim C1: on the Line sequence [("BAHAMAS", bold), ("Mr. John Doe",
plain), ("Ministry of Environment", plain), ("", blank)] with no prior
active Delegation, the single-column assembler emits exactly one Record
{Delegation "BAHAMAS", Honorific "Mr.", PersonName "John Doe", Affiliation
"Ministry of Environment"}: the bold line sets the delegation and is
discarded, the person line is split by the honorific parser, the following
non-bold non-empty line is consumed as affiliation, and the blank line
terminates the record. -/
theorem singlecol_scenario_bahamas :
    singlecolLoop none c1lines =
      [⟨"BAHAMAS".toList, "Mr.".toList, "John Doe".toList,
        "Ministry of Environment".toList⟩] := by decide

/-- Claim C2 (counterexample): for the lines with gap sequence [1, 3] (an
even count n = 2), the segmenter's reference spacing is NOT the lower median
sorted(gaps)[n/2 - 1] = 1 claimed by the spec — the code takes
sorted(diffs)[len(diffs) // 2], the upper median 3. -/
theorem medianGap_not_lower_median :
    (gapsOf exC2).length = 2
    ∧ medianGap exC2
        ≠ (sortedGaps exC2).getD ((gapsOf exC2).length / 2 - 1) 0 := by
  norm_num [medianGap, sortedGaps, gapsOf, midsOf, exC2,
    List.insertionSort, List.orderedInsert]

/-- Claim C2 (amended): for every Line sequence with an even number n ≥ 2 of
consecutive-midpoint gaps, the segmenter's reference spacing equals the
UPPER median of the sorted gap sequence (the element at 0-based index n/2),
the paragraph-break threshold equals that median multiplied by the paragraph
factor, and the segmenter's scan runs with exactly that threshold. -/
theorem medianGap_upper_median_rule (lines : List LineY) (factor : ℚ)
    (h1 : 2 ≤ (gapsOf lines).length)
    (h2 : (gapsOf lines).length % 2 = 0) :
    medianGap lines = (sortedGaps lines).getD ((gapsOf lines).length / 2) 0
    ∧ paraThreshold lines factor = medianGap lines * factor
    ∧ collect_paragraphs_with_y lines factor
        = paraStep (paraThreshold lines factor) [] none none none lines := by
  refine ⟨rfl, rfl, ?_⟩
  match lines with
  | [] => simp [gapsOf, midsOf] at h1
  | [a] => simp [gapsOf, midsOf] at h1
  | a :: b :: l =>
    rw [collect_paragraphs_cons, if_neg (by simp)]

/-- Witness for C2's amended rule at the concrete even-gap input exC2. -/
theorem medianGap_upper_median_rule_witness :
    medianGap exC2 = (sortedGaps exC2).getD ((gapsOf exC2).length / 2) 0
    ∧ paraThreshold exC2 (3/2) = medianGap exC2 * (3/2)
    ∧ collect_paragraphs_with_y exC2 (3/2)
        = paraStep (paraThreshold exC2 (3/2)) [] none none none exC2 :=
  medianGap_upper_median_rule exC2 (3/2)
    (by simp [gapsOf, midsOf, exC2]) (by simp [gapsOf, midsOf, exC2])

/-- Claim C3: a non-header column Paragraph whose midpoint lies strictly
below the midpoint of every Header on the page (in particular when there are
no Headers) still yields a Record, and its Delegation field is the empty
string. -/
theorem twocol_record_before_all_headers (headers : List (ℚ × Text))
    (paras : List Para) (blk : Para) (h1 : blk ∈ paras)
    (h2 : isSingletonHeader blk = false) (h3 : blk.lines ≠ [])
    (h4 : ∀ p ∈ headers, (blk.y0 + blk.y1) / 2 < p.1) :
    recordForBlock headers blk ∈ twocolColumnRecords headers paras
    ∧ (recordForBlock headers blk).Delegation = [] := by
  refine ⟨recordForBlock_mem headers paras blk h1 h2 h3, ?_⟩
  show pyOrEmpty (header_for_mid headers ((blk.y0 + blk.y1) / 2)) = []
  rw [header_for_mid_none headers _ h4]
  rfl

/-- Witness for C3 on a page with no headers at all. -/
theorem twocol_record_before_all_headers_witness :
    recordForBlock [] c3blk ∈ twocolColumnRecords [] [c3blk]
    ∧ (recordForBlock [] c3blk).Delegation = [] :=
  twocol_record_before_all_headers [] [c3blk] c3blk (by decide) (by decide)
    (by decide) (by simp)

/-- Claim C4: a Line's text qualifies as a header iff, after trimming
whitespace, it is non-empty and every character is an uppercase letter, a
space, or a slash (the code's predicate coincides with the spec's
characterisation on every input), and the lone-Line Paragraph
"SWITZERLAND / SUISSE / SUIZA" is stored as the Header named "SWITZERLAND"
(text before the first slash, trimmed). -/
theorem header_classifier_contract :
    (∀ t : Text, is_all_caps_header t = headerShapedSpec t)
    ∧ headersOfParas [⟨["SWITZERLAND / SUISSE / SUIZA".toList], 1, 1⟩]
        = [(1, "SWITZERLAND".toList)] := by
  constructor
  · intro t
    cases t with
    | nil => rfl
    | cons c cs => rfl
  · have h1 : is_all_caps_header ("SWITZERLAND / SUISSE / SUIZA".toList)
        = true := by decide
    norm_num [headersOfParas, List.filterMap, h1, List.insertionSort]
    decide

/-- Claim C5 (counterexample): the spec's "40%/35%-of-total split" page is
impossible — the left (x0 < threshold) and right (x0 ≥ threshold) counts
partition the page's tokens, so their fractions of the total always sum to
1, never to 40% + 35% = 75%. -/
theorem no_forty_thirtyfive_split :
    ¬ ∃ ws : List Word, ws ≠ []
      ∧ (leftCount ws 260 : ℚ) / (ws.length : ℚ) = 2/5
      ∧ (rightCount ws 260 : ℚ) / (ws.length : ℚ) = 7/20 := by
  rintro ⟨ws, hne, hl, hr⟩
  have hlen : (ws.length : ℚ) ≠ 0 := by
    intro h0
    exact hne (List.length_eq_zero.mp (by exact_mod_cast h0))
  have hsum : (leftCount ws 260 : ℚ) + (rightCount ws 260 : ℚ)
      = (ws.length : ℚ) := by
    exact_mod_cast leftCount_add_rightCount ws 260
  have h2 : (2/5 : ℚ) + 7/20 = 1 := by
    rw [← hl, ← hr, div_add_div_same, hsum, div_self hlen]
  norm_num at h2

/-- Claim C5 (amended): with all sampled pages extracting successfully, the
detector concludes "two" iff one of the first two pages splits at the
x-threshold into left and right counts each at least 25% of that page's
total, and "one" otherwise; in particular a 40%/60% page resolves to "two"
and a 95%/5% page (with no later qualifying page) resolves to "one". -/
theorem detect_layout_quarter_rule :
    (∀ (pages : List (List Word)) (t : ℚ),
      (detect_layout_quick (pages.map some) t = "two"
        ↔ (pages.take 2).any (fun ws => pageQualifies ws t) = true)
      ∧ (detect_layout_quick (pages.map some) t = "one"
        ↔ (pages.take 2).any (fun ws => pageQualifies ws t) = false))
    ∧ detect_layout_quick [some pageForty] 260 = "two"
    ∧ detect_layout_quick [some pageNinetyFive] 260 = "one" := by
  refine ⟨fun pages t => ?_, ?_, ?_⟩
  · rw [detect_layout_quick, ← List.map_take, detectGo_map_some_eq]
    by_cases h : (pages.take 2).any (fun ws => pageQualifies ws t) = true
    · simp [h]
    · simp only [Bool.not_eq_true] at h
      simp [h]
  · show detectGo [some pageForty] 260 = "two"
    rw [detectGo_cons_some]
    rw [if_pos]
    norm_num [pageQualifies, leftCount, rightCount, pageForty, List.countP,
      List.countP.go, List.replicate]
  · show detectGo [some pageNinetyFive] 260 = "one"
    rw [detectGo_cons_some]
    rw [if_neg]
    · rfl
    · norm_num [pageQualifies, leftCount, rightCount, pageNinetyFive,
        List.countP, List.countP.go, List.replicate]

/-- Claim C6 (counterexample): an extraction failure on the first sampled
page followed by a qualifying two-column page does NOT yield "two" — the
whole scan sits in one try/except whose handler returns "one", so the
failing page is not skipped. -/
theorem detect_failure_not_skipped :
    detect_layout_quick [none, some pageForty] 260 = "one"
    ∧ pageQualifies pageForty 260 = true := by
  refine ⟨rfl, ?_⟩
  norm_num [pageQualifies, leftCount, rightCount, pageForty, List.countP,
    List.countP.go, List.replicate]

/-- Claim C6 (amended): an extraction failure on a sampled page aborts the
scan and returns single-column immediately; pages after the failing one are
never inspected, and a failure on the second page matters only when the
first page did not already qualify. -/
theorem detect_failure_aborts (rest rest2 : List (Option (List Word)))
    (ws : List Word) (t t2 : ℚ) :
    detect_layout_quick (none :: rest) t = "one"
    ∧ detect_layout_quick (some ws :: none :: rest2) t2
        = (if pageQualifies ws t2 then "two" else "one") := by
  refine ⟨rfl, ?_⟩
  show detectGo [some ws, none] t2 = _
  rw [detectGo_cons_some]
  rfl

/-- Claim C7: the honorific parser maps "Mr. John Smith" to
(honorific "Mr.", person "John Smith"), and every trimmed input whose prefix
matches no fragment of the ordered honorific list is returned unchanged
with an empty honorific. -/
theorem honorific_parsing_rule :
    split_honorific_and_person "Mr. John Smith".toList
      = ("Mr.".toList, "John Smith".toList)
    ∧ ∀ s : Text, stripPy s = s → titleMatch s = none →
        split_honorific_and_person s = ([], s) := by
  refine ⟨by decide, fun s h1 h2 => ?_⟩
  unfold split_honorific_and_person
  simp only [h1, h2]

/-- Witness for C7's no-match case at the concrete input "John Smith". -/
theorem honorific_parsing_rule_witness :
    split_honorific_and_person "John Smith".toList
      = ([], "John Smith".toList) :=
  honorific_parsing_rule.2 "John Smith".toList (by decide) (by decide)

/-- Claim C8: empty-page totality holds in extract_pdf_data.py — an empty
token stream yields zero Lines, zero Paragraphs and zero Records, and the
single-column engine proceeds to the next page — but the
single_column_bold_extract.py variant of the clusterer indexes chars[0]
without a guard and raises IndexError (modelled as none) on the very same
input, aborting instead of proceeding. -/
theorem empty_page_totality_and_sc_crash :
    group_chars_to_lines [] 3 = []
    ∧ collect_paragraphs_with_y [] (3/2) = []
    ∧ group_words_to_lines_with_y [] 3 = []
    ∧ (∀ pages : List (List CChar),
        extract_singlecol_textpdf ([] :: pages)
          = extract_singlecol_textpdf pages)
    ∧ sc_group_chars_to_lines [] 3 = none
    ∧ (∀ pages : List (List CChar), scPageLines ([] :: pages) = none) :=
  ⟨rfl, rfl, rfl, fun _ => rfl, rfl, fun _ => rfl⟩

/-- Claim C9: for every input Line sequence and factor, the segmenter's
Paragraphs each contain at least one Line, their line lists concatenate to
the input line texts in order, and consequently there are at most as many
Paragraphs as Lines. -/
theorem paragraph_partition_invariant (lines : List LineY) (factor : ℚ) :
    ((collect_paragraphs_with_y lines factor).all fun p => !p.lines.isEmpty)
      = true
    ∧ (collect_paragraphs_with_y lines factor).flatMap Para.lines
        = lines.map LineY.text
    ∧ (collect_paragraphs_with_y lines factor).length ≤ lines.length := by
  have hne := collect_paragraphs_lines_ne_nil lines factor
  have hfl := collect_paragraphs_flatten lines factor
  refine ⟨?_, hfl, ?_⟩
  · rw [List.all_eq_true]
    intro p hp
    simpa using hne p hp
  · have hlen := length_le_flatten _ hne
    rw [hfl] at hlen
    simpa using hlen

/-- Claim C10: the column loop suppresses exactly the singleton
header-shaped paragraphs (and vacuous empty blocks); every paragraph with
two or more Lines — even one whose first Line is header-shaped — yields a
Record whose Honorific and PersonName come from feeding that first Line to
the honorific parser, not a Delegation. -/
theorem twocol_multiline_paragraph_emitted (headers : List (ℚ × Text))
    (paras : List Para) (blk : Para) (h1 : blk ∈ paras)
    (h2 : 2 ≤ blk.lines.length) :
    twocolColumnRecords headers paras
      = (paras.filter
          (fun b => !isSingletonHeader b && !b.lines.isEmpty)).map
          (recordForBlock headers)
    ∧ recordForBlock headers blk ∈ twocolColumnRecords headers paras
    ∧ (recordForBlock headers blk).Honorific
        = (split_honorific_and_person (stripPy (blk.lines.headD []))).1
    ∧ (recordForBlock headers blk).Person_Name
        = (split_honorific_and_person (stripPy (blk.lines.headD []))).2 := by
  obtain ⟨a, b, l, hlines⟩ : ∃ a b l, blk.lines = a :: b :: l := by
    match hx : blk.lines with
    | [] => rw [hx] at h2; simp at h2
    | [a] => rw [hx] at h2; simp at h2
    | a :: b :: l => exact ⟨a, b, l, rfl⟩
  have hsh : isSingletonHeader blk = false := by
    unfold isSingletonHeader
    rw [hlines]
  have hne : blk.lines ≠ [] := by rw [hlines]; simp
  exact ⟨twocolColumnRecords_eq headers paras,
    recordForBlock_mem headers paras blk h1 hsh hne, rfl, rfl⟩

/-- Witness for C10 on a two-line paragraph whose first line is the
header-shaped text "ARGENTINA": the record is emitted and the all-caps text
becomes the PersonName. -/
theorem twocol_multiline_paragraph_emitted_witness :
    is_all_caps_header (c10blk.lines.headD []) = true
    ∧ recordForBlock [] c10blk ∈ twocolColumnRecords [] [c10blk]
    ∧ (recordForBlock [] c10blk).Person_Name = "ARGENTINA".toList :=
  ⟨by decide,
   (twocol_multiline_paragraph_emitted [] [c10blk] c10blk (by decide)
      (by decide)).2.1,
   by decide⟩
